import Mathlib

/-!
Verification of the Granola → Snowflake ingest/retrieval core.

Shallow embedding of the algorithmic parts of the repository:
* `chunkBySentences`, `insertChunks`, `processOne` and the backfill loop of
  `src/api/rechunk.js`;
* `mmr`, the scoring SQL and the vector-resolution step of `retrieveChunks`
  (`src/unnamed/part_000`).

JavaScript numbers are modelled as real numbers (`ℝ`); strings as Lean
`String`s over their character lists (ASCII whitespace subset of the JS `\s`
class); SQL result sets as Lean lists, with the deterministic tie-break
"earlier row first" standing in for the engine's arbitrary order among ties.
External effects (Snowflake, crypto, uuid, AI_EMBED) enter as explicit
function parameters.
-/

namespace Granola

/-! ## Diversifier: `mmr` from `src/unnamed/part_000`, lines 54-80 -/

/-- A candidate document as consumed by `mmr`:
`{ CHUNK_ID: string; sim: number; vec: number[] }`. -/
structure Doc where
  CHUNK_ID : String
  sim : ℝ
  vec : List ℝ

/-- `dot = (a, b) => a.reduce((s, ai, i) => s + ai * b[i], 0)`,
paired pointwise (vectors in the store share one dimension). -/
def dot : List ℝ → List ℝ → ℝ
  | a :: as, b :: bs => a * b + dot as bs
  | _, _ => 0

/-- Sum of squares of the entries, the radicand of `Math.hypot(...v)`. -/
def sumSq : List ℝ → ℝ
  | [] => 0
  | a :: as => a * a + sumSq as

/-- `norm = v => Math.hypot(...v)`. -/
noncomputable def normV (v : List ℝ) : ℝ := Real.sqrt (sumSq v)

/-- `cos = (a, b) => dot(a, b) / (norm(a) * norm(b))`. -/
noncomputable def cosSim (a b : List ℝ) : ℝ := dot a b / (normV a * normV b)

/-- `Math.max(...xs)` over a nonempty list (`0` as junk value on `[]`,
the source only evaluates it on nonempty lists). -/
noncomputable def listMax : List ℝ → ℝ
  | [] => 0
  | x :: xs => xs.foldl max x

/-- `simToChosen = chosen.length ? Math.max(...chosen.map(c => cos(d.vec, c.vec))) : 0`. -/
noncomputable def maxSimToChosen (chosen : List Doc) (d : Doc) : ℝ :=
  match chosen with
  | [] => 0
  | _ :: _ => listMax (chosen.map fun c => cosSim d.vec c.vec)

/-- The greedy MMR objective of line 71:
`score = lambda * simQ - (1 - lambda) * simToChosen`. -/
noncomputable def mmrScore (lambda : ℝ) (chosen : List Doc) (d : Doc) : ℝ :=
  lambda * d.sim - (1 - lambda) * maxSimToChosen chosen d

/-- The `for (const d of pool)` scan of lines 67-73: starting from current
best `b`, replace it whenever a strictly higher-scoring candidate appears
(`score > best`), so the earliest maximiser wins. -/
noncomputable def pickAcc (lambda : ℝ) (chosen : List Doc) (b : Doc) : List Doc → Doc
  | [] => b
  | d :: ds =>
    if mmrScore lambda chosen b < mmrScore lambda chosen d
    then pickAcc lambda chosen d ds
    else pickAcc lambda chosen b ds

/-- Lines 67-73 as a whole: `best` starts at `-Infinity`, so the first pool
element always becomes the initial best; `none` only on an empty pool. -/
noncomputable def pickBest (lambda : ℝ) (chosen : List Doc) : List Doc → Option Doc
  | [] => none
  | d :: ds => some (pickAcc lambda chosen d ds)

/-- Lines 76-77: `pool.findIndex(x => x.CHUNK_ID === bestDoc.CHUNK_ID)` then
`pool.splice(idx, 1)` — remove the first entry carrying the chosen id. -/
def eraseById : List Doc → String → List Doc
  | [], _ => []
  | d :: ds, id => if d.CHUNK_ID == id then ds else d :: eraseById ds id

/-- The `while (chosen.length < Math.min(k, pool.length))` loop of lines
66-78, fuelled; note the bound re-reads the **current** (shrinking) pool.
`docs.length` fuel is enough: each pass moves one element out of the pool. -/
noncomputable def mmrGo (lambda : ℝ) (k : ℕ) : ℕ → List Doc → List Doc → List Doc
  | 0, chosen, _ => chosen
  | fuel + 1, chosen, pool =>
    if chosen.length < min k pool.length then
      match pickBest lambda chosen pool with
      | none => chosen
      | some bd => mmrGo lambda k fuel (chosen ++ [bd]) (eraseById pool bd.CHUNK_ID)
    else chosen

/-- `export function mmr(queryVec, docs, k = 12, lambda = 0.7)` — the
`queryVec` parameter is accepted and never read. -/
noncomputable def mmr (_queryVec : List ℝ) (docs : List Doc) (k : ℕ := 12)
    (lambda : ℝ := 7 / 10) : List Doc :=
  mmrGo lambda k docs.length [] docs

/-! ## Candidate retriever: `retrieveChunks` of `src/unnamed/part_000`,
lines 83-222.  The scope-then-rank SQL of lines 109-138 is embedded over the
scored rows it produces: `sim` is the cosine relevance computed by Snowflake
(external), and the two `ILIKE` outcomes of the `kw_bonus` cases are carried
as booleans on each row. -/

/-- One row of the `SCORED` CTE, as far as the JS code can observe it. -/
structure Row where
  CHUNK_ID : String
  MEETING_ID : String
  sim : ℝ
  matchMeeting : Bool
  matchCustomer : Bool

/-- The `kw_bonus` column (lines 121-126): `+0.05` when the meeting scope
term is present and matched, `+0.05` likewise for the customer term. -/
noncomputable def kwBonus (meetingScope customerScope : Option String) (r : Row) : ℝ :=
  (if meetingScope.isSome && r.matchMeeting then 5 / 100 else 0)
    + (if customerScope.isSome && r.matchCustomer then 5 / 100 else 0)

/-- The `RERANK` score of line 130: `(sim + kw_bonus) AS score`. -/
noncomputable def scoreRow (meetingScope customerScope : Option String) (r : Row) : ℝ :=
  r.sim + kwBonus meetingScope customerScope r

/-- `a` is ranked before `b` by
`ROW_NUMBER() OVER (PARTITION BY MEETING_ID ORDER BY score DESC)`:
strictly higher score, or equal score and earlier position in the result
set (the deterministic stand-in for the engine's tie order). -/
def rankedBefore (ms cs : Option String) (a b : ℕ × Row) : Prop :=
  scoreRow ms cs b.2 < scoreRow ms cs a.2
    ∨ (scoreRow ms cs a.2 = scoreRow ms cs b.2 ∧ a.1 < b.1)

noncomputable instance (ms cs : Option String) (a b : ℕ × Row) :
    Decidable (rankedBefore ms cs a b) := by
  unfold rankedBefore
  infer_instance

/-- The number of rows of `p`'s meeting ranked before `p`. -/
noncomputable def countBefore (ms cs : Option String) (rows : List Row) (p : ℕ × Row) : ℕ :=
  rows.enum.countP fun q =>
    decide (q.2.MEETING_ID = p.2.MEETING_ID ∧ rankedBefore ms cs q p)

/-- `ROW_NUMBER()` of line 135 for the indexed row `p`: one plus the number
of same-meeting rows ranked before it. -/
noncomputable def rowNumber (ms cs : Option String) (rows : List Row) (p : ℕ × Row) : ℕ :=
  1 + countBefore ms cs rows p

/-- The `QUALIFY ... <= 6` filter of line 135. -/
noncomputable def qualifyTop6 (ms cs : Option String) (rows : List Row) : List Row :=
  (rows.enum.filter fun p => decide (rowNumber ms cs rows p ≤ 6)).map (·.2)

/-- Insert a row into a list sorted by descending score, after any
equal-scored entries (stable model of `ORDER BY score DESC`). -/
noncomputable def insertByScore (ms cs : Option String) (r : Row) : List Row → List Row
  | [] => [r]
  | a :: l =>
    if scoreRow ms cs a < scoreRow ms cs r then r :: a :: l
    else a :: insertByScore ms cs r l

/-- `ORDER BY score DESC` of line 136 (stable insertion sort). -/
noncomputable def sortByScoreDesc (ms cs : Option String) (l : List Row) : List Row :=
  l.foldr (insertByScore ms cs) []

/-- The full post-scoring SQL tail: `QUALIFY`, `ORDER BY score DESC` and
`LIMIT Math.min(k * 3, 50)` (lines 135-137 and 146). -/
noncomputable def sqlPipeline (ms cs : Option String) (k : ℕ) (rows : List Row) : List Row :=
  (sortByScoreDesc ms cs (qualifyTop6 ms cs rows)).take (min (3 * k) 50)

/-- Step 4 of `retrieveChunks` (lines 177-183): attach the secondarily
fetched vector (`vectorMap.get(r.CHUNK_ID) || []`), carry the combined SQL
`score` as the MMR relevance (`sim: r.score`), and drop candidates whose
vector did not resolve (`.filter(d => d.vec.length > 0)`). -/
noncomputable def docsWithVectors (ms cs : Option String) (rows : List Row)
    (vmap : String → Option (List ℝ)) : List Doc :=
  (rows.map fun r =>
      { CHUNK_ID := r.CHUNK_ID
        sim := scoreRow ms cs r
        vec := (vmap r.CHUNK_ID).getD [] : Doc }).filter
    fun d => decide (0 < d.vec.length)

/-- Line 185: `const finalChunks = mmr([], docsWithVectors, k, 0.7);`. -/
noncomputable def retrieveSelect (ms cs : Option String) (rows : List Row)
    (vmap : String → Option (List ℝ)) (k : ℕ) : List Doc :=
  mmr [] (docsWithVectors ms cs rows vmap) k (7 / 10)

/-! ## Chunker: `chunkBySentences` of `src/api/rechunk.js`, lines 22-80.
Strings are processed by character; the JS `\s` class is modelled by its
ASCII members (the transcripts at issue are ASCII). -/

/-- ASCII members of the JS `\s` class: space, tab, LF, CR, VT, FF. -/
def isJsWs (c : Char) : Bool :=
  c == ' ' || c == '\t' || c == '\n' || c == '\x0d' ||
    c == Char.ofNat 11 || c == Char.ofNat 12

/-- The lookbehind class `[\.\!\?]` of the sentence-split regex. -/
def isSentEnd (c : Char) : Bool := c == '.' || c == '!' || c == '?'

/-- The lookahead class `[A-Z0-9"'(]` of the sentence-split regex. -/
def isSentStart (c : Char) : Bool :=
  ('A' ≤ c && c ≤ 'Z') || ('0' ≤ c && c ≤ '9') ||
    c == '"' || c == '\'' || c == '('

/-- Scanner for `src.split(/(?<=[\\.\\!\\?])\\s+(?=[A-Z0-9"'(])/g)` (line 29),
one character at a time: `prev` is the last consumed character, `acc` the
current piece reversed, and `pending` is `some run` while inside a
candidate separator (`run` the whitespace consumed so far, reversed).  A
separator can only start right after `.`/`!`/`?`; `\\s+` is greedy, so the
run extends to the first non-whitespace character, and the match succeeds
only if that character is in the lookahead class — otherwise the whole run
belongs to the current piece (no position inside the run can satisfy the
lookbehind). -/
def splitScan (prev : Option Char) (acc : List Char) (pending : Option (List Char)) :
    List Char → List (List Char)
  | [] =>
    match pending with
    | none => [acc.reverse]
    | some run => [(run ++ acc).reverse]
  | c :: rest =>
    match pending with
    | none =>
      if isJsWs c && (match prev with | some p => isSentEnd p | none => false) then
        splitScan prev acc (some [c]) rest
      else
        splitScan (some c) (c :: acc) none rest
    | some run =>
      if isJsWs c then splitScan prev acc (some (c :: run)) rest
      else if isSentStart c then acc.reverse :: splitScan (some c) [c] none rest
      else splitScan (some c) (c :: (run ++ acc)) none rest

/-- The sentence list of line 29, as strings. -/
def splitSentences (s : String) : List String :=
  (splitScan none [] none s.toList).map List.asString

/-- `estimateTokens = str => Math.ceil(str.length / 4)` (line 26). -/
def estimateTokens (s : String) : ℕ := (s.length + 3) / 4

/-- JS `String.prototype.trim` over the modelled whitespace class. -/
def jsTrim (s : String) : String :=
  (((s.toList.dropWhile isJsWs).reverse.dropWhile isJsWs).reverse).asString

/-- `s.slice(0, n)` for a nonnegative `n`. -/
def strTake (s : String) (n : ℕ) : String := (s.toList.take n).asString

/-- `s.slice(Math.max(0, s.length - n))`: the last `n` characters. -/
def strTakeRight (s : String) (n : ℕ) : String :=
  (s.toList.drop (s.length - n)).asString

/-- Lines 39-40 and 68-69: `buf.split(/[.!?]/)[0].trim()`, shortened to 50
characters plus an ellipsis when longer. -/
def deriveTitle (buf : String) : String :=
  let firstSentence := jsTrim (buf.toList.takeWhile fun c => !isSentEnd c).asString
  if 50 < firstSentence.length then strTake firstSentence 50 ++ "..."
  else firstSentence

/-- One emitted chunk (lines 43-48 / 71-76). -/
structure Chunk where
  text : String
  sectionId : ℕ
  sectionTitle : String
  tokenCount : ℕ
deriving DecidableEq

/-- Mutable state of the chunker loop: emitted chunks, the buffer, and the
`sectionId` / `sectionTitle` counters. -/
structure ChunkState where
  chunks : List Chunk
  buf : String
  sectionId : ℕ
  sectionTitle : String
deriving DecidableEq

/-- `flushIfNeeded` (lines 35-56): when the estimated token count of the
buffer reaches the target, emit the buffer truncated to `targetTokens * 4`
characters and seed the next buffer with the last `overlapTokens * 4`. -/
def flushIfNeeded (targetTokens overlapTokens : ℕ) (st : ChunkState) : ChunkState :=
  if targetTokens ≤ estimateTokens st.buf then
    let title := if st.sectionTitle = "" then deriveTitle st.buf else st.sectionTitle
    { chunks := st.chunks ++
        [{ text := strTake st.buf (targetTokens * 4)
           sectionId := st.sectionId
           sectionTitle := title
           tokenCount := estimateTokens st.buf }]
      buf := strTakeRight st.buf (overlapTokens * 4)
      sectionId := st.sectionId + 1
      sectionTitle := "" }
  else st

/-- The body of `for (const s of sentences)` (lines 58-64): trim the piece,
skip it when empty, otherwise append it to the buffer with a single space
(none when the buffer ends in a newline), then try to flush. -/
def feedSentence (targetTokens overlapTokens : ℕ) (st : ChunkState) (s : String) : ChunkState :=
  let piece := jsTrim s
  if piece = "" then st
  else
    let buf :=
      if st.buf = "" then piece
      else st.buf ++ (if st.buf.toList.getLast? = some '\n' then "" else " ") ++ piece
    flushIfNeeded targetTokens overlapTokens { st with buf := buf }

/-- `chunkBySentences(text, targetTokens = 1000, overlapTokens = 150)`
(lines 22-80): `\r` → `\n`, sentence split, accumulate and flush, then
emit the final trimmed buffer when nonempty. -/
def chunkBySentences (text : String) (targetTokens : ℕ := 1000)
    (overlapTokens : ℕ := 150) : List Chunk :=
  let src := (text.toList.map fun c => if c == '\x0d' then '\n' else c).asString
  let sentences := splitSentences src
  let st := sentences.foldl (feedSentence targetTokens overlapTokens)
    { chunks := [], buf := "", sectionId := 1, sectionTitle := "" }
  if jsTrim st.buf ≠ "" then
    let title := if st.sectionTitle = "" then deriveTitle st.buf else st.sectionTitle
    st.chunks ++
      [{ text := jsTrim st.buf
         sectionId := st.sectionId
         sectionTitle := title
         tokenCount := estimateTokens st.buf }]
  else st.chunks

/-! ## Indexer: `fetchTranscript`, `insertChunks` and the handler batch loop
of `src/api/rechunk.js`, lines 132-286.  The Snowflake tables become an
explicit state: a `MEETINGS` lookup and a `CHUNKS` row list.  External
collaborators are parameters: `hashFn` for `crypto.sha1`-hex, `uuid` for
`uuidv4()` (one fresh id per inserted row, indexed by insertion counter),
`embedFn` for `AI_EMBED`.  The `PARTICIPANTS` JSON round-trip
(`JSON.stringify` at ingest, `JSON.parse` here) is modelled as the identity
on the participant list, and `new Date(x).toISOString().split('T')[0]` as
taking the date part of an ISO timestamp string. -/

/-- A `MEETINGS` row as read by `rechunk.js`. -/
structure MeetingRec where
  TITLE : Option String
  DATETIME : Option String
  PARTICIPANTS : List String
  TRANSCRIPT : Option String

/-- A `CHUNKS` row as written by `insertChunks`; `EMBED` is the
`EMBED_1024` column, `none` until the `AI_EMBED` update fills it. -/
structure ChunkRow where
  CHUNK_ID : String
  MEETING_ID : String
  IDX : ℕ
  TEXT : String
  SECTION_ID : ℕ
  SECTION_TITLE : String
  TOKEN_COUNT : ℕ
  CONTENT_HASH : String
  EMBED : Option (List ℝ)

/-- The persistent store visible to `rechunk.js`. -/
structure DB where
  meetings : String → Option MeetingRec
  chunks : List ChunkRow

/-- The per-document outcome object pushed into `results`
(lines 257 and 262): `{ meeting_id, chunks }` or
`{ meeting_id, chunks: 0, skipped: "empty_transcript" }`. -/
structure Outcome where
  meeting_id : String
  chunks : ℕ
  skipped : Option String
deriving DecidableEq

/-- `new Date(s).toISOString().split('T')[0]` for an ISO timestamp. -/
def isoDatePart (s : String) : String := ((s.splitOn "T").headD s)

/-- The chunk header of line 177:
`[Meeting: T | Customer: C | Date: D | Section: S | t=idx]`. -/
def headerOf (title customer date sectionTitle : String) (idx : ℕ) : String :=
  "[Meeting: " ++ title ++ " | Customer: " ++ customer ++ " | Date: " ++ date ++
    " | Section: " ++ sectionTitle ++ " | t=" ++ toString idx ++ "]"

/-- One pass of the insert loop (lines 175-210) over the running
`(idx, table)` state: build the headerised text, hash it, skip when a row
of this meeting already carries the hash, otherwise append the new row
(with `EMBED_1024` unset) and advance `idx`. -/
def insStep (hashFn : String → String) (uuid : ℕ → String)
    (meetingId title customer date : String) :
    ℕ × List ChunkRow → Chunk → ℕ × List ChunkRow
  | (idx, tbl), chunk =>
    let headerized := headerOf title customer date chunk.sectionTitle idx ++ "\n" ++ chunk.text
    let h := hashFn headerized
    if 0 < (tbl.filter fun c => c.MEETING_ID == meetingId && c.CONTENT_HASH == h).length
    then (idx, tbl)
    else
      (idx + 1, tbl ++
        [{ CHUNK_ID := uuid idx
           MEETING_ID := meetingId
           IDX := idx
           TEXT := headerized
           SECTION_ID := chunk.sectionId
           SECTION_TITLE := chunk.sectionTitle
           TOKEN_COUNT := chunk.tokenCount
           CONTENT_HASH := h
           EMBED := none }])

/-- The embedding backfill of lines 213-222: set `EMBED_1024` on every row
of this meeting whose vector is still unset. -/
def embedUpdate (embedFn : String → List ℝ) (meetingId : String)
    (tbl : List ChunkRow) : List ChunkRow :=
  tbl.map fun c =>
    if c.MEETING_ID == meetingId && c.EMBED.isNone
    then { c with EMBED := some (embedFn c.TEXT) }
    else c

/-- `insertChunks(conn, meetingId, chunks)` (lines 144-225): read the
meeting metadata (`meeting_not_found` when absent), derive title, ISO date
and customer (first participant), **delete every existing chunk row of the
meeting**, run the insert loop, then fill missing embeddings when anything
was inserted.  Returns the number of rows inserted. -/
def insertChunks (hashFn : String → String) (uuid : ℕ → String)
    (embedFn : String → List ℝ) (db : DB) (meetingId : String)
    (chunks : List Chunk) : Except String (ℕ × DB) :=
  match db.meetings meetingId with
  | none => .error "meeting_not_found"
  | some meeting =>
    let meetingTitle := meeting.TITLE.getD "Unknown Meeting"
    let meetingDate := match meeting.DATETIME with
      | some s => isoDatePart s
      | none => "Unknown Date"
    let customer := meeting.PARTICIPANTS.headD "Unknown Customer"
    let base := db.chunks.filter fun c => !(c.MEETING_ID == meetingId)
    let out := chunks.foldl (insStep hashFn uuid meetingId meetingTitle customer meetingDate) (0, base)
    let tbl := if 0 < out.1 then embedUpdate embedFn meetingId out.2 else out.2
    .ok (out.1, { meetings := db.meetings, chunks := tbl })

/-- `processOne` (lines 255-263): fetch the transcript
(`meeting_not_found` when the meeting is absent), return the
`empty_transcript` outcome when it is null or blank, otherwise chunk it
with `(1000, 150)` and replace the meeting's rows. -/
def processOne (hashFn : String → String) (uuid : ℕ → String)
    (embedFn : String → List ℝ) (db : DB) (id : String) :
    Except String (Outcome × DB) :=
  match db.meetings id with
  | none => .error "meeting_not_found"
  | some m =>
    match m.TRANSCRIPT with
    | none => .ok ({ meeting_id := id, chunks := 0, skipped := some "empty_transcript" }, db)
    | some t =>
      if jsTrim t = "" then
        .ok ({ meeting_id := id, chunks := 0, skipped := some "empty_transcript" }, db)
      else
        match insertChunks hashFn uuid embedFn db id (chunkBySentences t 1000 150) with
        | .error e => .error e
        | .ok (n, db') => .ok ({ meeting_id := id, chunks := n, skipped := none }, db')

/-- The backfill loop of the handler (lines 265-279):
`for (const r of rows) results.push(await processOne(r.MEETING_ID));`.
A thrown `processOne` propagates to the handler's catch (lines 282-285),
which is the `.error` branch here. -/
def handlerBatch (hashFn : String → String) (uuid : ℕ → String)
    (embedFn : String → List ℝ) : DB → List String → Except String (List Outcome × DB)
  | db, [] => .ok ([], db)
  | db, id :: rest =>
    match processOne hashFn uuid embedFn db id with
    | .error e => .error e
    | .ok (o, db') =>
      match handlerBatch hashFn uuid embedFn db' rest with
      | .error e => .error e
      | .ok (os, db'') => .ok (o :: os, db'')

/-! ## Projections and concrete instances used by the example runs -/

/-- The inserted-row count reported by a `replace`, when it succeeded. -/
def insCount : Except String (ℕ × DB) → Option ℕ
  | .ok (n, _) => some n
  | .error _ => none

/-- The `chunks` field of a per-document outcome, when `processOne`
succeeded. -/
def okChunks : Except String (Outcome × DB) → Option ℕ
  | .ok (o, _) => some o.chunks
  | .error _ => none

/-- A concrete stand-in for `crypto.sha1` hex digests (any function works
for the properties proved here). -/
def hashW : String → String := fun s => "sha1:" ++ s

/-- A concrete `uuidv4()` supply, one fresh id per insertion index. -/
def uuidW : ℕ → String := fun n => "uuid-" ++ toString n

/-- A concrete `AI_EMBED` stand-in. -/
def embedW : String → List ℝ := fun _ => []

/-- A meeting whose transcript chunks to a single passage. -/
def mrecFound : MeetingRec :=
  { TITLE := some "Weekly sync"
    DATETIME := some "2024-05-01T10:00:00Z"
    PARTICIPANTS := ["Acme"]
    TRANSCRIPT := some "Hello there. How are you?" }

/-- A meeting whose transcript is blank. -/
def mrecBlank : MeetingRec :=
  { TITLE := some "Empty one"
    DATETIME := none
    PARTICIPANTS := []
    TRANSCRIPT := some "   " }

/-- Store for the backfill example: `m2missing` is absent. -/
def dbC2 : DB :=
  { meetings := fun id =>
      if id == "m2found" then some mrecFound
      else if id == "m2blank" then some mrecBlank
      else none
    chunks := [] }

/-- Store for the re-run example. -/
def db3 : DB :=
  { meetings := fun id => if id == "m3" then some mrecFound else none
    chunks := [] }

/-- One chunk of unchanged content for the re-run example. -/
def chunks3 : List Chunk :=
  [{ text := "Hello there. How are you?", sectionId := 1,
     sectionTitle := "Hello there", tokenCount := 7 }]

/-- The store after the first `replace` run of the re-run example. -/
def db3after : DB :=
  match insertChunks hashW uuidW embedW db3 "m3" chunks3 with
  | .ok (_, d) => d
  | .error _ => db3

/-- Candidates for the shrinking-pool run: two documents, distinct ids. -/
noncomputable def dC1a : Doc := { CHUNK_ID := "a", sim := 1, vec := [1] }

noncomputable def dC1b : Doc := { CHUNK_ID := "b", sim := 1 / 2, vec := [1] }

/-- Duplicate pair for the diversity run: equal relevance, identical
vectors. -/
noncomputable def dC6a : Doc := { CHUNK_ID := "a", sim := 1, vec := [1, 0] }

noncomputable def dC6b : Doc := { CHUNK_ID := "b", sim := 1, vec := [1, 0] }

/-- A third candidate with small but nonzero relevance, orthogonal to the
duplicate pair. -/
noncomputable def dC6e : Doc := { CHUNK_ID := "e", sim := 1 / 10, vec := [0, 1] }

/-- Already-chosen duplicate for the step-level diversity witness. -/
noncomputable def wD1 : Doc := { CHUNK_ID := "w1", sim := 1, vec := [1, 0] }

/-- The other duplicate, still in the pool. -/
noncomputable def wD2 : Doc := { CHUNK_ID := "w2", sim := 1 / 2, vec := [1, 0] }

/-- An at-least-as-relevant, non-redundant pool mate. -/
noncomputable def wE : Doc := { CHUNK_ID := "we", sim := 1, vec := [0, 1] }

/-- Single candidate for the greedy-step witness. -/
noncomputable def dC4w : Doc := { CHUNK_ID := "w4", sim := 1, vec := [1] }

/-- Document A of the per-document-cap example, seven candidates. -/
noncomputable def rA1 : Row :=
  { CHUNK_ID := "a1", MEETING_ID := "A", sim := 9 / 10,
    matchMeeting := false, matchCustomer := false }

noncomputable def rA2 : Row :=
  { CHUNK_ID := "a2", MEETING_ID := "A", sim := 8 / 10,
    matchMeeting := false, matchCustomer := false }

noncomputable def rA3 : Row :=
  { CHUNK_ID := "a3", MEETING_ID := "A", sim := 7 / 10,
    matchMeeting := false, matchCustomer := false }

noncomputable def rA4 : Row :=
  { CHUNK_ID := "a4", MEETING_ID := "A", sim := 6 / 10,
    matchMeeting := false, matchCustomer := false }

noncomputable def rA5 : Row :=
  { CHUNK_ID := "a5", MEETING_ID := "A", sim := 5 / 10,
    matchMeeting := false, matchCustomer := false }

noncomputable def rA6 : Row :=
  { CHUNK_ID := "a6", MEETING_ID := "A", sim := 4 / 10,
    matchMeeting := false, matchCustomer := false }

noncomputable def rA7 : Row :=
  { CHUNK_ID := "a7", MEETING_ID := "A", sim := 3 / 10,
    matchMeeting := false, matchCustomer := false }

/-- Document B of the per-document-cap example, one candidate. -/
noncomputable def rB1 : Row :=
  { CHUNK_ID := "b1", MEETING_ID := "B", sim := 65 / 100,
    matchMeeting := false, matchCustomer := false }

/-- The candidate set of the per-document-cap example. -/
noncomputable def rowsAB : List Row := [rA1, rA2, rA3, rA4, rA5, rA6, rA7, rB1]

/-- Rows for the vector-resolution example. -/
noncomputable def rW1 : Row :=
  { CHUNK_ID := "va", MEETING_ID := "M", sim := 1,
    matchMeeting := false, matchCustomer := false }

noncomputable def rW2 : Row :=
  { CHUNK_ID := "vc", MEETING_ID := "M", sim := 1,
    matchMeeting := false, matchCustomer := false }

noncomputable def rowsC8 : List Row := [rW1, rW2]

/-- Vector lookup resolving only `va`. -/
noncomputable def vmapC8 : String → Option (List ℝ) :=
  fun id => if id == "va" then some [1] else none

/-- A row whose meeting-scope keyword matched. -/
noncomputable def rC10 : Row :=
  { CHUNK_ID := "k1", MEETING_ID := "M", sim := 1 / 2,
    matchMeeting := true, matchCustomer := false }

/-- Vector lookup for the combined-score example. -/
noncomputable def vmapC10 : String → Option (List ℝ) :=
  fun id => if id == "k1" then some [1] else none

/-- The pool entry built for `rW1` by the vector-resolution step. -/
noncomputable def docC8 : Doc :=
  { CHUNK_ID := "va", sim := scoreRow none none rW1, vec := [1] }

/-- The pool entry built for `rC10` by the vector-resolution step. -/
noncomputable def docC10 : Doc :=
  { CHUNK_ID := "k1", sim := scoreRow (some "beta") none rC10, vec := [1] }

/-! # Lemmas about the diversifier -/

theorem le_foldl_max (l : List ℝ) (a : ℝ) : a ≤ l.foldl max a := by
  induction l generalizing a with
  | nil => exact le_refl a
  | cons x xs ih => exact le_trans (le_max_left a x) (ih (max a x))

theorem foldl_max_of_mem {l : List ℝ} {y : ℝ} (h : y ∈ l) (a : ℝ) :
    y ≤ l.foldl max a := by
  induction l generalizing a with
  | nil => cases h
  | cons x xs ih =>
    rcases List.mem_cons.mp h with rfl | hy
    · exact le_trans (le_max_right a y) (le_foldl_max xs (max a y))
    · exact ih hy (max a x)

theorem foldl_max_mem (l : List ℝ) (a : ℝ) :
    l.foldl max a = a ∨ l.foldl max a ∈ l := by
  induction l generalizing a with
  | nil => exact Or.inl rfl
  | cons x xs ih =>
    rcases ih (max a x) with h | h
    · rcases max_choice a x with hm | hm
      · exact Or.inl (by rw [List.foldl_cons, h, hm])
      · exact Or.inr (by rw [List.foldl_cons, h, hm]; exact List.mem_cons_self x xs)
    · exact Or.inr (List.mem_cons_of_mem x h)

/-- Every already-chosen candidate's cosine similarity is dominated by
`maxSimToChosen`. -/
theorem cosSim_le_maxSim {chosen : List Doc} {c : Doc} (h : c ∈ chosen) (d : Doc) :
    cosSim d.vec c.vec ≤ maxSimToChosen chosen d := by
  cases chosen with
  | nil => cases h
  | cons x xs =>
    show cosSim d.vec c.vec ≤ listMax ((x :: xs).map fun c => cosSim d.vec c.vec)
    rw [List.map_cons]
    show cosSim d.vec c.vec ≤ (xs.map fun c => cosSim d.vec c.vec).foldl max (cosSim d.vec x.vec)
    rcases List.mem_cons.mp h with rfl | hc
    · exact le_foldl_max _ _
    · exact foldl_max_of_mem (l := xs.map fun c => cosSim d.vec c.vec)
        (List.mem_map_of_mem _ hc) _

/-- On a nonempty chosen list, `maxSimToChosen` is attained at some chosen
candidate. -/
theorem maxSim_attained (d : Doc) {chosen : List Doc} (h : chosen ≠ []) :
    ∃ c ∈ chosen, maxSimToChosen chosen d = cosSim d.vec c.vec := by
  cases chosen with
  | nil => exact absurd rfl h
  | cons x xs =>
    have hrw : maxSimToChosen (x :: xs) d
        = (xs.map fun c => cosSim d.vec c.vec).foldl max (cosSim d.vec x.vec) := by
      show listMax ((x :: xs).map fun c => cosSim d.vec c.vec) = _
      rw [List.map_cons]
      rfl
    rcases foldl_max_mem (xs.map fun c => cosSim d.vec c.vec) (cosSim d.vec x.vec) with hm | hm
    · exact ⟨x, List.mem_cons_self x xs, by rw [hrw, hm]⟩
    · rcases List.mem_map.mp hm with ⟨c, hc, hcm⟩
      exact ⟨c, List.mem_cons_of_mem x hc, by rw [hrw, ← hcm]⟩

/-- The inner `for` scan: it returns the seed `b` when nothing beats it, and
otherwise the first candidate attaining the maximal MMR score (everything
before it scores strictly lower, everything overall scores no higher). -/
theorem pickAcc_spec (lambda : ℝ) (chosen : List Doc) (l : List Doc) (b : Doc) :
    (pickAcc lambda chosen b l = b ∧
      ∀ x ∈ l, mmrScore lambda chosen x ≤ mmrScore lambda chosen b)
    ∨ ∃ l₁ r l₂, l = l₁ ++ r :: l₂ ∧ pickAcc lambda chosen b l = r
        ∧ mmrScore lambda chosen b < mmrScore lambda chosen r
        ∧ (∀ x ∈ l₁, mmrScore lambda chosen x < mmrScore lambda chosen r)
        ∧ ∀ x ∈ l, mmrScore lambda chosen x ≤ mmrScore lambda chosen r := by
  induction l generalizing b with
  | nil => exact Or.inl ⟨rfl, by simp⟩
  | cons d ds ih =>
    by_cases h : mmrScore lambda chosen b < mmrScore lambda chosen d
    · have he : pickAcc lambda chosen b (d :: ds) = pickAcc lambda chosen d ds := by
        simp [pickAcc, h]
      rcases ih d with ⟨heq, hall⟩ | ⟨l₁, r, l₂, hsplit, heq, hlt, hstrict, hall⟩
      · refine Or.inr ⟨[], d, ds, rfl, by rw [he, heq], h, by simp, ?_⟩
        intro x hx
        rcases List.mem_cons.mp hx with rfl | hx
        · exact le_refl _
        · exact hall x hx
      · refine Or.inr ⟨d :: l₁, r, l₂, by simp [hsplit], by rw [he, heq],
          lt_trans h hlt, ?_, ?_⟩
        · intro x hx
          rcases List.mem_cons.mp hx with rfl | hx
          · exact hlt
          · exact hstrict x hx
        · intro x hx
          rcases List.mem_cons.mp hx with rfl | hx
          · exact le_of_lt hlt
          · exact hall x hx
    · have he : pickAcc lambda chosen b (d :: ds) = pickAcc lambda chosen b ds := by
        simp [pickAcc, h]
      rcases ih b with ⟨heq, hall⟩ | ⟨l₁, r, l₂, hsplit, heq, hlt, hstrict, hall⟩
      · refine Or.inl ⟨by rw [he, heq], ?_⟩
        intro x hx
        rcases List.mem_cons.mp hx with rfl | hx
        · exact not_lt.mp h
        · exact hall x hx
      · refine Or.inr ⟨d :: l₁, r, l₂, by simp [hsplit], by rw [he, heq], hlt, ?_, ?_⟩
        · intro x hx
          rcases List.mem_cons.mp hx with rfl | hx
          · exact lt_of_le_of_lt (not_lt.mp h) hlt
          · exact hstrict x hx
        · intro x hx
          rcases List.mem_cons.mp hx with rfl | hx
          · exact le_of_lt (lt_of_le_of_lt (not_lt.mp h) hlt)
          · exact hall x hx

/-- What lines 67-73 select: a pool member of maximal MMR score whose
strictly-earlier pool mates all score strictly lower. -/
theorem pickBest_spec {lambda : ℝ} {chosen pool : List Doc} {best : Doc}
    (h : pickBest lambda chosen pool = some best) :
    ∃ l₁ l₂, pool = l₁ ++ best :: l₂
      ∧ (∀ x ∈ l₁, mmrScore lambda chosen x < mmrScore lambda chosen best)
      ∧ ∀ x ∈ pool, mmrScore lambda chosen x ≤ mmrScore lambda chosen best := by
  cases pool with
  | nil => cases h
  | cons p ps =>
    have hb : pickAcc lambda chosen p ps = best := by
      simpa [pickBest] using h
    rcases pickAcc_spec lambda chosen ps p with ⟨heq, hall⟩ | ⟨l₁, r, l₂, hsplit, heq, hlt, hstrict, hall⟩
    · have hbp : best = p := by rw [← hb, heq]
      subst hbp
      refine ⟨[], ps, rfl, by simp, ?_⟩
      intro x hx
      rcases List.mem_cons.mp hx with rfl | hx
      · exact le_refl _
      · exact hall x hx
    · have hbr : best = r := by rw [← hb, heq]
      subst hbr
      refine ⟨p :: l₁, l₂, by simp [hsplit], ?_, ?_⟩
      · intro x hx
        rcases List.mem_cons.mp hx with rfl | hx
        · exact hlt
        · exact hstrict x hx
      · intro x hx
        rcases List.mem_cons.mp hx with rfl | hx
        · exact le_of_lt hlt
        · exact hall x (hsplit ▸ hx)

/-! # Claim theorems: diversifier -/

/-- C4: at every executed step of the greedy MMR loop (the while-condition
holding), the candidate moved from pool to chosen maximises
`lambda * relevance - (1 - lambda) * maxSimilarityToChosen`, where
`maxSimilarityToChosen` is `0` on an empty chosen list and otherwise the
maximum cosine similarity to the already-chosen vectors (dominating each and
attained at one); on ties the candidate earliest in the pool wins (everything
strictly before the selected one scores strictly lower). -/
theorem mmr_step_greedy (lambda : ℝ) (k fuel : ℕ) (chosen pool : List Doc)
    (h : chosen.length < min k pool.length) :
    ∃ best l₁ l₂,
      mmrGo lambda k (fuel + 1) chosen pool
        = mmrGo lambda k fuel (chosen ++ [best]) (eraseById pool best.CHUNK_ID)
      ∧ pool = l₁ ++ best :: l₂
      ∧ (∀ x ∈ pool,
          lambda * x.sim - (1 - lambda) * maxSimToChosen chosen x
            ≤ lambda * best.sim - (1 - lambda) * maxSimToChosen chosen best)
      ∧ (∀ x ∈ l₁,
          lambda * x.sim - (1 - lambda) * maxSimToChosen chosen x
            < lambda * best.sim - (1 - lambda) * maxSimToChosen chosen best)
      ∧ (∀ d : Doc, maxSimToChosen [] d = 0)
      ∧ (∀ d : Doc, ∀ c ∈ chosen, cosSim d.vec c.vec ≤ maxSimToChosen chosen d)
      ∧ (chosen = [] ∨ ∀ d : Doc, ∃ c ∈ chosen,
          maxSimToChosen chosen d = cosSim d.vec c.vec) := by
  cases pool with
  | nil => simp at h
  | cons p ps =>
    have hsome : pickBest lambda chosen (p :: ps) = some (pickAcc lambda chosen p ps) := rfl
    obtain ⟨l₁, l₂, hsplit, hstrict, hall⟩ := pickBest_spec hsome
    refine ⟨pickAcc lambda chosen p ps, l₁, l₂, ?_, hsplit, ?_, ?_, fun d => rfl, ?_, ?_⟩
    · show mmrGo lambda k (fuel + 1) chosen (p :: ps) = _
      rw [mmrGo, if_pos h, hsome]
    · intro x hx
      have := hall x hx
      simpa [mmrScore] using this
    · intro x hx
      have := hstrict x hx
      simpa [mmrScore] using this
    · intro d c hc
      exact cosSim_le_maxSim hc d
    · cases chosen with
      | nil => exact Or.inl rfl
      | cons c cs => exact Or.inr fun d => maxSim_attained d (List.cons_ne_nil c cs)

/-- Witness for `mmr_step_greedy`: a one-candidate pool with `k = 1`,
`fuel = 0`, empty chosen list. -/
theorem mmr_step_greedy_witness :
    (([] : List Doc).length < min 1 [dC4w].length)
    ∧ ∃ best l₁ l₂,
        mmrGo (7 / 10) 1 (0 + 1) [] [dC4w]
          = mmrGo (7 / 10) 1 0 ([] ++ [best]) (eraseById [dC4w] best.CHUNK_ID)
        ∧ [dC4w] = l₁ ++ best :: l₂
        ∧ (∀ x ∈ [dC4w],
            (7 / 10 : ℝ) * x.sim - (1 - 7 / 10) * maxSimToChosen [] x
              ≤ (7 / 10 : ℝ) * best.sim - (1 - 7 / 10) * maxSimToChosen [] best)
        ∧ (∀ x ∈ l₁,
            (7 / 10 : ℝ) * x.sim - (1 - 7 / 10) * maxSimToChosen [] x
              < (7 / 10 : ℝ) * best.sim - (1 - 7 / 10) * maxSimToChosen [] best)
        ∧ (∀ d : Doc, maxSimToChosen [] d = 0)
        ∧ (∀ d : Doc, ∀ c ∈ ([] : List Doc), cosSim d.vec c.vec ≤ maxSimToChosen [] d)
        ∧ (([] : List Doc) = [] ∨ ∀ d : Doc, ∃ c ∈ ([] : List Doc),
            maxSimToChosen [] d = cosSim d.vec c.vec) :=
  ⟨by decide, mmr_step_greedy (7 / 10) 1 0 [] [dC4w] (by decide)⟩

/-- C1 run: on the pool `[dC1a, dC1b]` with `finalK = 2` the loop stops
after one pick because its bound `Math.min(k, pool.length)` re-reads the
shrunken pool; the result has 1 element, not `min 2 2 = 2`. -/
theorem mmr_halves_small_pool :
    mmr [] [dC1a, dC1b] 2 (7 / 10) = [dC1a]
    ∧ min 2 ([dC1a, dC1b] : List Doc).length = 2
    ∧ (mmr [] [dC1a, dC1b] 2 (7 / 10)).length ≠ min 2 ([dC1a, dC1b] : List Doc).length := by
  have h : mmr [] [dC1a, dC1b] 2 (7 / 10) = [dC1a] := by
    norm_num [mmr, mmrGo, pickBest, pickAcc, mmrScore, maxSimToChosen, eraseById, dC1a, dC1b]
  exact ⟨h, by decide, by rw [h]; decide⟩

/-- C6 run: both duplicates (`sim = 1`, identical vectors, cosine 1) are
selected by `mmr` with `λ = 0.7 < 1` while the nonzero-relevance candidate
`dC6e` is never selected at all. -/
theorem mmr_duplicates_crowd_out :
    dC6a.sim = dC6b.sim
    ∧ cosSim dC6a.vec dC6b.vec = 1
    ∧ dC6e.sim ≠ 0
    ∧ ((7 : ℝ) / 10 < 1)
    ∧ mmr [] [dC6a, dC6b, dC6e] 3 (7 / 10) = [dC6a, dC6b] := by
  refine ⟨rfl, ?_, ?_, by norm_num, ?_⟩
  · norm_num [cosSim, dot, normV, sumSq, dC6a, dC6b]
  · norm_num [dC6e]
  · norm_num [mmr, mmrGo, pickBest, pickAcc, mmrScore, maxSimToChosen, listMax,
      eraseById, cosSim, dot, normV, sumSq, dC6a, dC6b, dC6e]

/-- C6 (amended): once one of two fully-redundant equal-relevance duplicates
is chosen, a step of MMR with `λ ∈ [0, 1)` never selects the other while the
pool still holds a candidate that is at least as relevant and not fully
redundant (maximum cosine to the chosen set `< 1`). -/
theorem mmr_duplicate_deferred (lambda : ℝ) (h0 : 0 ≤ lambda) (h1 : lambda < 1)
    (chosen pool : List Doc) (d1 d2 e : Doc)
    (hmem : d1 ∈ chosen) (hcos : cosSim d2.vec d1.vec = 1)
    (he : e ∈ pool) (hrel : d2.sim ≤ e.sim)
    (hred : maxSimToChosen chosen e < 1) :
    pickBest lambda chosen pool ≠ some d2 := by
  intro hpb
  obtain ⟨l₁, l₂, hsplit, hstrict, hall⟩ := pickBest_spec hpb
  have hd2 : (1 : ℝ) ≤ maxSimToChosen chosen d2 := by
    rw [← hcos]
    exact cosSim_le_maxSim hmem d2
  have hcomp := hall e he
  have h1l : 0 < 1 - lambda := by linarith
  have he_gt : mmrScore lambda chosen d2 < mmrScore lambda chosen e := by
    have t1 : (1 - lambda) * maxSimToChosen chosen e < (1 - lambda) * 1 :=
      mul_lt_mul_of_pos_left hred h1l
    have t2 : (1 - lambda) * 1 ≤ (1 - lambda) * maxSimToChosen chosen d2 :=
      mul_le_mul_of_nonneg_left hd2 (le_of_lt h1l)
    have t3 : lambda * d2.sim ≤ lambda * e.sim := mul_le_mul_of_nonneg_left hrel h0
    simp only [mmrScore]
    linarith
  exact absurd hcomp (not_le.mpr he_gt)

/-- Witness for `mmr_duplicate_deferred`: duplicate `wD2` of the chosen
`wD1`, pool mate `wE` orthogonal to the chosen set and at least as
relevant. -/
theorem mmr_duplicate_deferred_witness :
    ((0 : ℝ) ≤ 7 / 10) ∧ ((7 : ℝ) / 10 < 1)
    ∧ wD1 ∈ [wD1] ∧ cosSim wD2.vec wD1.vec = 1
    ∧ wE ∈ [wD2, wE] ∧ wD2.sim ≤ wE.sim ∧ maxSimToChosen [wD1] wE < 1
    ∧ pickBest (7 / 10) [wD1] [wD2, wE] ≠ some wD2 := by
  refine ⟨by norm_num, by norm_num, List.mem_singleton.mpr rfl, ?_, ?_, ?_, ?_, ?_⟩
  · norm_num [cosSim, dot, normV, sumSq, wD1, wD2]
  · simp
  · norm_num [wD2, wE]
  · norm_num [maxSimToChosen, listMax, cosSim, dot, normV, sumSq, wD1, wE]
  · exact mmr_duplicate_deferred (7 / 10) (by norm_num) (by norm_num) [wD1] [wD2, wE]
      wD1 wD2 wE (List.mem_singleton.mpr rfl)
      (by norm_num [cosSim, dot, normV, sumSq, wD1, wD2])
      (by simp) (by norm_num [wD2, wE])
      (by norm_num [maxSimToChosen, listMax, cosSim, dot, normV, sumSq, wD1, wE])

/-- C9: the output of `mmr` does not depend on its `queryVec` parameter (it
is never read), and the retriever indeed invokes it with the empty array. -/
theorem mmr_ignores_query_vector :
    (∀ (q1 q2 : List ℝ) (docs : List Doc) (k : ℕ) (lambda : ℝ),
        mmr q1 docs k lambda = mmr q2 docs k lambda)
    ∧ ∀ (ms cs : Option String) (rows : List Row) (vmap : String → Option (List ℝ)) (k : ℕ),
        retrieveSelect ms cs rows vmap k
          = mmr [] (docsWithVectors ms cs rows vmap) k (7 / 10) :=
  ⟨fun _ _ _ _ _ => rfl, fun _ _ _ _ _ => rfl⟩


/-! # Claim theorems: backfill error handling -/

/-- C2 run: in the batch `["m2missing", "m2found"]` the first document
aborts the whole backfill with one error — the second document, which
processes fine on its own (one chunk), never receives an outcome. -/
theorem backfill_abort_on_failure :
    dbC2.meetings "m2missing" = none
    ∧ okChunks (processOne hashW uuidW embedW dbC2 "m2found") = some 1
    ∧ handlerBatch hashW uuidW embedW dbC2 ["m2missing", "m2found"]
        = .error "meeting_not_found" :=
  ⟨rfl, by decide, rfl⟩

/-- C2 (amended): the backfill loop is sequential and per-document only for
the non-throwing outcomes: a document with an empty or null transcript
yields its own `empty_transcript` outcome and processing continues, but a
document whose processing throws aborts the whole batch with that error
(no per-document failure outcome exists, and later documents never run). -/
theorem batch_per_document (hashFn : String → String) (uuid : ℕ → String)
    (embedFn : String → List ℝ) (db : DB) (id : String) (rest : List String) :
    (∀ e, processOne hashFn uuid embedFn db id = .error e →
        handlerBatch hashFn uuid embedFn db (id :: rest) = .error e)
    ∧ ∀ m, db.meetings id = some m →
        (m.TRANSCRIPT = none ∨ ∃ t, m.TRANSCRIPT = some t ∧ jsTrim t = "") →
        handlerBatch hashFn uuid embedFn db (id :: rest)
          = (handlerBatch hashFn uuid embedFn db rest).map
              fun p => ({ meeting_id := id, chunks := 0,
                          skipped := some "empty_transcript" } :: p.1, p.2) := by
  constructor
  · intro e he
    rw [handlerBatch, he]
  · intro m hm htr
    have hp : processOne hashFn uuid embedFn db id
        = .ok ({ meeting_id := id, chunks := 0, skipped := some "empty_transcript" }, db) := by
      simp only [processOne, hm]
      rcases htr with h | ⟨t, ht, htrim⟩
      · rw [h]
      · simp [ht, htrim]
    rw [handlerBatch, hp]
    cases hb : handlerBatch hashFn uuid embedFn db rest with
    | error e => simp [hb, Except.map]
    | ok p => simp [hb, Except.map]

/-- Witness for `batch_per_document`: the missing meeting aborts its batch;
the blank-transcript meeting only contributes a skipped outcome. -/
theorem batch_per_document_witness :
    (processOne hashW uuidW embedW dbC2 "m2missing" = .error "meeting_not_found"
      ∧ handlerBatch hashW uuidW embedW dbC2 ["m2missing", "m2found"]
          = .error "meeting_not_found")
    ∧ dbC2.meetings "m2blank" = some mrecBlank
    ∧ mrecBlank.TRANSCRIPT = some "   "
    ∧ jsTrim "   " = ""
    ∧ handlerBatch hashW uuidW embedW dbC2 ["m2blank"]
        = (handlerBatch hashW uuidW embedW dbC2 []).map
            fun p => ({ meeting_id := "m2blank", chunks := 0,
                        skipped := some "empty_transcript" } :: p.1, p.2) :=
  ⟨⟨rfl, (batch_per_document hashW uuidW embedW dbC2 "m2missing" ["m2found"]).1
      "meeting_not_found" rfl⟩,
   rfl, rfl, rfl,
   (batch_per_document hashW uuidW embedW dbC2 "m2blank" []).2 mrecBlank rfl
     (Or.inr ⟨"   ", rfl, rfl⟩)⟩

/-! # Lemmas about the indexer -/

theorem map_eq_self_of {α : Type} {f : α → α} {l : List α}
    (h : ∀ a ∈ l, f a = a) : l.map f = l := by
  induction l with
  | nil => rfl
  | cons a l ih =>
    rw [List.map_cons, h a (List.mem_cons_self a l),
      ih fun x hx => h x (List.mem_cons_of_mem a hx)]

/-- One pass of the insert loop either skips (hash already present) or
appends exactly one fresh row of the processed meeting. -/
theorem insStep_cases (hashFn : String → String) (uuid : ℕ → String)
    (mid title customer date : String) (st : ℕ × List ChunkRow) (c : Chunk) :
    insStep hashFn uuid mid title customer date st c = st
    ∨ ∃ row, insStep hashFn uuid mid title customer date st c
          = (st.1 + 1, st.2 ++ [row])
        ∧ row.MEETING_ID = mid := by
  cases st with
  | mk idx tbl =>
    simp only [insStep]
    split
    · exact Or.inl rfl
    · exact Or.inr ⟨_, rfl, rfl⟩

/-- The insert loop only ever appends rows of the processed meeting, and
the returned count is the number of appended rows. -/
theorem insLoop_shape (hashFn : String → String) (uuid : ℕ → String)
    (mid title customer date : String) (cs : List Chunk) :
    ∀ (idx : ℕ) (tbl : List ChunkRow),
      ∃ ins : List ChunkRow,
        cs.foldl (insStep hashFn uuid mid title customer date) (idx, tbl)
          = (idx + ins.length, tbl ++ ins)
        ∧ ∀ r ∈ ins, r.MEETING_ID = mid := by
  induction cs with
  | nil => exact fun idx tbl => ⟨[], by simp, by simp⟩
  | cons c cs ih =>
    intro idx tbl
    rw [List.foldl_cons]
    rcases insStep_cases hashFn uuid mid title customer date (idx, tbl) c with
      h | ⟨row, heq, hmid⟩
    · rw [h]
      exact ih idx tbl
    · rw [heq]
      obtain ⟨ins, hfold, hmem⟩ := ih (idx + 1) (tbl ++ [row])
      refine ⟨row :: ins, ?_, ?_⟩
      · rw [hfold]
        refine congrArg₂ Prod.mk ?_ (by simp)
        simp
        omega
      · intro r hr
        rcases List.mem_cons.mp hr with rfl | hr
        · exact hmid
        · exact hmem r hr

/-- `embedUpdate` never changes a row's meeting id. -/
theorem embedUpdate_meeting (embedFn : String → List ℝ) (mid : String)
    (l : List ChunkRow) (r : ChunkRow) (h : r ∈ embedUpdate embedFn mid l) :
    ∃ r0 ∈ l, r.MEETING_ID = r0.MEETING_ID := by
  rcases List.mem_map.mp h with ⟨r0, hr0, hmap⟩
  refine ⟨r0, hr0, ?_⟩
  rw [← hmap]
  split
  · rfl
  · rfl

/-- Rows of other meetings pass through `embedUpdate` unchanged. -/
theorem embedUpdate_other (embedFn : String → List ℝ) (mid : String)
    (l : List ChunkRow) (h : ∀ r ∈ l, (r.MEETING_ID == mid) = false) :
    embedUpdate embedFn mid l = l := by
  refine map_eq_self_of fun r hr => ?_
  rw [if_neg]
  simp [h r hr]


/-- C3 (amended): running `insertChunks` a second time for the same document
with the same chunks returns the same count `n` and leaves the store exactly
as after the first run: the leading `DELETE` removes the `n` stored rows, the
loop re-inserts the same `n` rows (the same-hash skip can only fire within a
single run), and the embedding backfill refills the same vectors.  The net
effect is idempotent, but the run performs `n` inserts, not zero. -/
theorem insertChunks_rerun (hashFn : String → String) (uuid : ℕ → String)
    (embedFn : String → List ℝ) (db : DB) (mid : String) (cs : List Chunk)
    (n : ℕ) (db' : DB)
    (h : insertChunks hashFn uuid embedFn db mid cs = .ok (n, db')) :
    insertChunks hashFn uuid embedFn db' mid cs = .ok (n, db') := by
  cases hm : db.meetings mid with
  | none =>
    simp only [insertChunks, hm] at h
    cases h
  | some meeting =>
    simp only [insertChunks, hm, Except.ok.injEq, Prod.mk.injEq] at h
    obtain ⟨hn, hdb⟩ := h
    subst hn
    subst hdb
    simp only [insertChunks, hm]
    have hbase : ∀ r ∈ db.chunks.filter (fun c => !(c.MEETING_ID == mid)),
        (r.MEETING_ID == mid) = false := by
      intro r hr
      have := List.of_mem_filter hr
      simpa using this
    obtain ⟨ins, hfold, hins⟩ := insLoop_shape hashFn uuid mid
      (meeting.TITLE.getD "Unknown Meeting")
      (meeting.PARTICIPANTS.headD "Unknown Customer")
      (match meeting.DATETIME with
        | some s => isoDatePart s
        | none => "Unknown Date") cs 0
      (db.chunks.filter fun c => !(c.MEETING_ID == mid))
    have hfe : ∀ l : List ChunkRow, (∀ r ∈ l, r.MEETING_ID = mid) →
        l.filter (fun c => !(c.MEETING_ID == mid)) = [] := by
      intro l hl
      refine List.filter_eq_nil_iff.mpr fun r hr => ?_
      simp [hl r hr]
    have hfb : (db.chunks.filter (fun c => !(c.MEETING_ID == mid))).filter
        (fun c => !(c.MEETING_ID == mid))
        = db.chunks.filter (fun c => !(c.MEETING_ID == mid)) :=
      List.filter_eq_self.mpr fun r hr =>
        List.of_mem_filter (p := fun (c : ChunkRow) => !(c.MEETING_ID == mid)) hr
    have hbase2 :
        (if 0 < (cs.foldl (insStep hashFn uuid mid
              (meeting.TITLE.getD "Unknown Meeting")
              (meeting.PARTICIPANTS.headD "Unknown Customer")
              (match meeting.DATETIME with
                | some s => isoDatePart s
                | none => "Unknown Date"))
            (0, db.chunks.filter fun c => !(c.MEETING_ID == mid))).1 then
          embedUpdate embedFn mid
            (cs.foldl (insStep hashFn uuid mid
                (meeting.TITLE.getD "Unknown Meeting")
                (meeting.PARTICIPANTS.headD "Unknown Customer")
                (match meeting.DATETIME with
                  | some s => isoDatePart s
                  | none => "Unknown Date"))
              (0, db.chunks.filter fun c => !(c.MEETING_ID == mid))).2
        else
          (cs.foldl (insStep hashFn uuid mid
              (meeting.TITLE.getD "Unknown Meeting")
              (meeting.PARTICIPANTS.headD "Unknown Customer")
              (match meeting.DATETIME with
                | some s => isoDatePart s
                | none => "Unknown Date"))
            (0, db.chunks.filter fun c => !(c.MEETING_ID == mid))).2).filter
          (fun c => !(c.MEETING_ID == mid))
        = db.chunks.filter (fun c => !(c.MEETING_ID == mid)) := by
      rw [hfold]
      split
      · rw [embedUpdate, List.map_append, ← embedUpdate, ← embedUpdate,
          embedUpdate_other embedFn mid _ hbase, List.filter_append, hfb]
        have : (embedUpdate embedFn mid ins).filter (fun c => !(c.MEETING_ID == mid)) = [] := by
          refine hfe _ fun r hr => ?_
          obtain ⟨r0, hr0, hrm⟩ := embedUpdate_meeting embedFn mid ins r hr
          rw [hrm]
          exact hins r0 hr0
        rw [this, List.append_nil]
      · rw [List.filter_append, hfb, hfe ins hins, List.append_nil]
    rw [hbase2]


/-- C3 run: re-running `replace` for meeting `m3` with the unchanged chunk
list reports 1 inserted passage again, not 0 — the leading delete removes
the stored copy, so the same-hash skip never fires across runs. -/
theorem rerun_inserts_again :
    insCount (insertChunks hashW uuidW embedW db3 "m3" chunks3) = some 1
    ∧ insCount (insertChunks hashW uuidW embedW db3after "m3" chunks3) = some 1
    ∧ (1 : ℕ) ≠ 0 :=
  ⟨by decide, by decide, by decide⟩

/-- Witness for `insertChunks_rerun`: the concrete one-chunk store. -/
theorem insertChunks_rerun_witness :
    insertChunks hashW uuidW embedW db3 "m3" chunks3 = .ok (1, db3after)
    ∧ insertChunks hashW uuidW embedW db3after "m3" chunks3 = .ok (1, db3after) :=
  ⟨rfl, insertChunks_rerun hashW uuidW embedW db3 "m3" chunks3 1 db3after rfl⟩


/-! # Claim theorems: chunker coverage -/

/-- C5 run: on the single-sentence input `"aaaa.QQQQbbbb"` with
`targetTokens = 1`, `overlapTokens = 1`, the flush emits the buffer
truncated to `1 * 4` characters and seeds the next buffer with only the
last `1 * 4`, so the non-whitespace middle span `QQQQ` appears in no
emitted chunk (neither text nor title): content is silently dropped. -/
theorem chunker_drops_content :
    (chunkBySentences "aaaa.QQQQbbbb" 1 1).map (fun c => c.text) = ["aaaa", "bbbb"]
    ∧ ∀ c ∈ chunkBySentences "aaaa.QQQQbbbb" 1 1,
        'Q' ∉ c.text.toList ∧ 'Q' ∉ c.sectionTitle.toList := by
  decide


/-! # Lemmas about the per-document cap -/

theorem rankedBefore_irrefl (ms cs : Option String) (p : ℕ × Row) :
    ¬ rankedBefore ms cs p p := by
  rintro (h | ⟨-, h⟩)
  · exact lt_irrefl _ h
  · exact lt_irrefl _ h

theorem rankedBefore_trans (ms cs : Option String) {a b c : ℕ × Row}
    (h1 : rankedBefore ms cs a b) (h2 : rankedBefore ms cs b c) :
    rankedBefore ms cs a c := by
  rcases h1 with h1 | ⟨e1, i1⟩ <;> rcases h2 with h2 | ⟨e2, i2⟩
  · exact Or.inl (lt_trans h2 h1)
  · exact Or.inl (e2 ▸ h1)
  · refine Or.inl ?_
    rw [e1]
    exact h2
  · exact Or.inr ⟨e1.trans e2, lt_trans i1 i2⟩

theorem rankedBefore_total (ms cs : Option String) {a b : ℕ × Row} (h : a.1 ≠ b.1) :
    rankedBefore ms cs a b ∨ rankedBefore ms cs b a := by
  rcases lt_trichotomy (scoreRow ms cs a.2) (scoreRow ms cs b.2) with hs | hs | hs
  · exact Or.inr (Or.inl hs)
  · rcases lt_or_gt_of_ne h with hi | hi
    · exact Or.inl (Or.inr ⟨hs, hi⟩)
    · exact Or.inr (Or.inr ⟨hs.symm, hi⟩)
  · exact Or.inl (Or.inl hs)

/-- A strict version of `countP` monotonicity: one member switching from
false to true makes the count strictly larger. -/
theorem countP_lt {α : Type} (P Q : α → Bool) (x : α) :
    ∀ l : List α, x ∈ l → P x = false → Q x = true →
      (∀ a ∈ l, P a = true → Q a = true) → l.countP P < l.countP Q := by
  intro l
  induction l with
  | nil => intro hx; cases hx
  | cons a l ih =>
    intro hx hPx hQx himp
    have himp' : ∀ b ∈ l, P b = true → Q b = true :=
      fun b hb => himp b (List.mem_cons_of_mem a hb)
    rw [List.countP_cons, List.countP_cons]
    rcases List.mem_cons.mp hx with rfl | hx'
    · have hle : l.countP P ≤ l.countP Q := List.countP_mono_left himp'
      rw [hPx, hQx]
      simp only [Bool.false_eq_true, if_false, if_true]
      omega
    · have hlt : l.countP P < l.countP Q := ih hx' hPx hQx himp'
      by_cases hPa : P a = true
      · rw [hPa, himp a (List.mem_cons_self a l) hPa]
        simpa using hlt
      · have hPa' : P a = false := by simpa using hPa
        rw [hPa']
        cases hQa : Q a <;> simp <;> omega

theorem enum_nodup {α : Type} (l : List α) : l.enum.Nodup := by
  have h := List.nodup_range l.length
  rw [← List.enum_map_fst l] at h
  exact h.of_map Prod.fst

theorem enum_fst_inj {α : Type} {l : List α} {i : ℕ} {x y : α}
    (hx : (i, x) ∈ l.enum) (hy : (i, y) ∈ l.enum) : x = y := by
  rw [List.mem_enum_iff_getElem?] at hx hy
  exact Option.some.inj (hx.symm.trans hy)

/-- `countBefore` grows strictly along `rankedBefore` within a meeting. -/
theorem countBefore_strict (ms cs : Option String) (rows : List Row)
    {p q : ℕ × Row} (hp : p ∈ rows.enum)
    (hmeet : p.2.MEETING_ID = q.2.MEETING_ID)
    (hb : rankedBefore ms cs p q) :
    countBefore ms cs rows p < countBefore ms cs rows q := by
  refine countP_lt _ _ p rows.enum hp ?_ ?_ ?_
  · exact decide_eq_false_iff_not.mpr fun h => rankedBefore_irrefl ms cs p h.2
  · exact decide_eq_true_eq.mpr ⟨hmeet, hb⟩
  · intro z hz h
    have h' := decide_eq_true_eq.mp h
    refine decide_eq_true_eq.mpr ⟨h'.1.trans hmeet, rankedBefore_trans ms cs h'.2 hb⟩

/-- At most six rows of any one meeting survive the `QUALIFY` filter. -/
theorem qualify_count_le (ms cs : Option String) (rows : List Row) (m : String) :
    ((qualifyTop6 ms cs rows).filter fun r => r.MEETING_ID == m).length ≤ 6 := by
  rw [qualifyTop6, ← List.countP_eq_length_filter, List.countP_map, List.countP_filter,
    List.countP_eq_length_filter]
  set K := rows.enum.filter
    (fun p => ((fun r : Row => r.MEETING_ID == m) ∘ Prod.snd) p
      && decide (rowNumber ms cs rows p ≤ 6)) with hK
  have hKE : ∀ p ∈ K, p ∈ rows.enum := fun p hp => List.mem_of_mem_filter hp
  have hKfacts : ∀ p ∈ K, p.2.MEETING_ID = m ∧ countBefore ms cs rows p < 6 := by
    intro p hp
    have h := List.of_mem_filter hp
    simp only [Function.comp, Bool.and_eq_true, beq_iff_eq, decide_eq_true_eq, rowNumber] at h
    exact ⟨h.1, by omega⟩
  have hinj : ∀ p ∈ K, ∀ q ∈ K, countBefore ms cs rows p = countBefore ms cs rows q → p = q := by
    intro p hp q hq hc
    by_contra hne
    have hij : p.1 ≠ q.1 := by
      intro hfst
      refine hne ?_
      have hx : (p.1, p.2) ∈ rows.enum := by
        have := hKE p hp
        simpa using this
      have hy : (p.1, q.2) ∈ rows.enum := by
        have hq' : (q.1, q.2) ∈ rows.enum := by simpa using hKE q hq
        rw [← hfst] at hq'
        exact hq'
      have hsnd : p.2 = q.2 := enum_fst_inj hx hy
      exact Prod.ext hfst hsnd
    have hmeet : p.2.MEETING_ID = q.2.MEETING_ID := by
      rw [(hKfacts p hp).1, (hKfacts q hq).1]
    rcases rankedBefore_total ms cs hij with hb | hb
    · exact absurd hc (Nat.ne_of_lt (countBefore_strict ms cs rows (hKE p hp) hmeet hb))
    · exact absurd hc.symm (Nat.ne_of_lt (countBefore_strict ms cs rows (hKE q hq) hmeet.symm hb))
  have hKnodup : K.Nodup := (enum_nodup rows).filter _
  have hmapnodup : (K.map (countBefore ms cs rows)).Nodup :=
    List.Nodup.map_on hinj hKnodup
  have hsub : (K.map (countBefore ms cs rows)).toFinset ⊆ Finset.range 6 := by
    intro x hx
    rw [List.mem_toFinset] at hx
    rcases List.mem_map.mp hx with ⟨p, hp, rfl⟩
    exact Finset.mem_range.mpr (hKfacts p hp).2
  calc K.length = (K.map (countBefore ms cs rows)).length := by rw [List.length_map]
    _ = (K.map (countBefore ms cs rows)).toFinset.card :=
        (List.toFinset_card_of_nodup hmapnodup).symm
    _ ≤ (Finset.range 6).card := Finset.card_le_card hsub
    _ = 6 := Finset.card_range 6

theorem insertByScore_perm (ms cs : Option String) (r : Row) :
    ∀ l : List Row, (insertByScore ms cs r l).Perm (r :: l) := by
  intro l
  induction l with
  | nil => exact List.Perm.refl _
  | cons a l ih =>
    rw [insertByScore]
    split
    · exact List.Perm.refl _
    · exact (ih.cons a).trans (List.Perm.swap r a l)

theorem sortByScoreDesc_perm (ms cs : Option String) :
    ∀ l : List Row, (sortByScoreDesc ms cs l).Perm l := by
  intro l
  induction l with
  | nil => exact List.Perm.refl _
  | cons a l ih =>
    rw [sortByScoreDesc, List.foldr_cons]
    exact (insertByScore_perm ms cs a _).trans (ih.cons a)


/-! # Claim theorems: retriever -/

/-- C7: at most six rows of any one source document enter the
pre-diversification candidate pool produced by the retrieval SQL, and the
retained rows of a document are its highest-scoring ones: any same-meeting
row ranked past six scores no higher than any row ranked within six. -/
theorem per_document_cap (ms cs : Option String) (k : ℕ) (rows : List Row) (m : String) :
    ((sqlPipeline ms cs k rows).filter fun r => r.MEETING_ID == m).length ≤ 6
    ∧ ∀ p q : ℕ × Row, p ∈ rows.enum → q ∈ rows.enum →
        q.2.MEETING_ID = p.2.MEETING_ID →
        rowNumber ms cs rows p ≤ 6 → 6 < rowNumber ms cs rows q →
        scoreRow ms cs q.2 ≤ scoreRow ms cs p.2 := by
  constructor
  · rw [sqlPipeline, ← List.countP_eq_length_filter]
    refine le_trans (List.Sublist.countP_le _ (List.take_sublist _ _)) ?_
    rw [(sortByScoreDesc_perm ms cs _).countP_eq, List.countP_eq_length_filter]
    exact qualify_count_le ms cs rows m
  · intro p q hpE hqE hmeet hple hqgt
    by_contra hgt
    push_neg at hgt
    have hb : rankedBefore ms cs q p := Or.inl hgt
    have hlt : countBefore ms cs rows q < countBefore ms cs rows p :=
      countBefore_strict ms cs rows hqE hmeet hb
    rw [rowNumber] at hple hqgt
    omega

/-- Witness for `per_document_cap`: document A with seven candidates scoring
0.9 … 0.3 and document B with one candidate scoring 0.65; A's top row is
ranked first, A's seventh row is ranked seventh and scores no higher, the
final pool holds at most six A rows and does hold B's single row. -/
theorem per_document_cap_witness :
    (0, rA1) ∈ rowsAB.enum ∧ (6, rA7) ∈ rowsAB.enum
    ∧ rA7.MEETING_ID = rA1.MEETING_ID
    ∧ rowNumber none none rowsAB (0, rA1) ≤ 6
    ∧ 6 < rowNumber none none rowsAB (6, rA7)
    ∧ scoreRow none none rA7 ≤ scoreRow none none rA1
    ∧ ((sqlPipeline none none 12 rowsAB).filter fun r => r.MEETING_ID == "A").length ≤ 6
    ∧ ((sqlPipeline none none 12 rowsAB).filter fun r => r.MEETING_ID == "B").length = 1 := by
  have h1 : (0, rA1) ∈ rowsAB.enum := by
    simp [rowsAB, List.enum, List.enumFrom]
  have h2 : (6, rA7) ∈ rowsAB.enum := by
    simp [rowsAB, List.enum, List.enumFrom]
  have h4 : rowNumber none none rowsAB (0, rA1) ≤ 6 := by
    norm_num [rowNumber, countBefore, rowsAB, List.enum, List.enumFrom, List.countP_cons,
      rankedBefore, scoreRow, kwBonus, rA1, rA2, rA3, rA4, rA5, rA6, rA7, rB1]
  have h5 : 6 < rowNumber none none rowsAB (6, rA7) := by
    have : rowNumber none none rowsAB (6, rA7) = 7 := by
      norm_num [rowNumber, countBefore, rowsAB, List.enum, List.enumFrom, List.countP_cons,
        rankedBefore, scoreRow, kwBonus, rA1, rA2, rA3, rA4, rA5, rA6, rA7, rB1]
      decide
    omega
  refine ⟨h1, h2, rfl, h4, h5, ?_, ?_, ?_⟩
  · exact (per_document_cap none none 12 rowsAB "A").2 (0, rA1) (6, rA7) h1 h2 rfl h4 h5
  · exact (per_document_cap none none 12 rowsAB "A").1
  · norm_num [sqlPipeline, sortByScoreDesc, insertByScore, qualifyTop6, rowNumber, countBefore,
      rowsAB, List.enum, List.enumFrom, List.countP_cons, List.filter_cons, List.map_cons,
      decide_eq_true_eq, rankedBefore, scoreRow, kwBonus,
      rA1, rA2, rA3, rA4, rA5, rA6, rA7, rB1,
      show ("A" : String) ≠ "B" by decide, show ("B" : String) ≠ "A" by decide]


/-- C8: every candidate in the diversification pool carries exactly the
vector the secondary fetch resolved for it, and that vector is nonempty;
a candidate whose vector did not resolve is excluded from the pool
entirely — no empty or stand-in vector ever reaches a cosine comparison. -/
theorem unresolved_vectors_excluded (ms cs : Option String) (rows : List Row)
    (vmap : String → Option (List ℝ)) :
    (∀ d ∈ docsWithVectors ms cs rows vmap,
        ∃ v, vmap d.CHUNK_ID = some v ∧ v ≠ [] ∧ d.vec = v)
    ∧ ∀ r ∈ rows, vmap r.CHUNK_ID = none →
        ∀ d ∈ docsWithVectors ms cs rows vmap, d.CHUNK_ID ≠ r.CHUNK_ID := by
  have hmain : ∀ d ∈ docsWithVectors ms cs rows vmap,
      ∃ v, vmap d.CHUNK_ID = some v ∧ v ≠ [] ∧ d.vec = v := by
    intro d hd
    rw [docsWithVectors] at hd
    have hlen := List.of_mem_filter hd
    have hd' := List.mem_of_mem_filter hd
    rcases List.mem_map.mp hd' with ⟨r, hr, rfl⟩
    simp only [decide_eq_true_eq] at hlen
    cases hv : vmap r.CHUNK_ID with
    | none => simp [hv] at hlen
    | some v =>
      refine ⟨v, by simp [hv], ?_, by simp [hv]⟩
      intro hnil
      rw [hnil] at hv
      simp [hv] at hlen
  refine ⟨hmain, ?_⟩
  intro r hr hnone d hd hid
  obtain ⟨v, hv, -, -⟩ := hmain d hd
  rw [hid, hnone] at hv
  cases hv

/-- Witness for `unresolved_vectors_excluded`: `va` resolves to `[1]` and is
in the pool with that vector; `vc` does not resolve and no pool entry
carries its id. -/
theorem unresolved_vectors_excluded_witness :
    docC8 ∈ docsWithVectors none none rowsC8 vmapC8
    ∧ (∃ v, vmapC8 docC8.CHUNK_ID = some v ∧ v ≠ [] ∧ docC8.vec = v)
    ∧ rW2 ∈ rowsC8 ∧ vmapC8 rW2.CHUNK_ID = none
    ∧ ∀ d ∈ docsWithVectors none none rowsC8 vmapC8, d.CHUNK_ID ≠ rW2.CHUNK_ID := by
  have hmem : docC8 ∈ docsWithVectors none none rowsC8 vmapC8 := by
    simp [docC8, docsWithVectors, rowsC8, rW1, rW2, vmapC8, scoreRow, kwBonus]
  have hr2 : rW2 ∈ rowsC8 := by simp [rowsC8]
  have hnone : vmapC8 rW2.CHUNK_ID = none := by simp [vmapC8, rW2]
  exact ⟨hmem,
    (unresolved_vectors_excluded none none rowsC8 vmapC8).1 _ hmem,
    hr2, hnone,
    (unresolved_vectors_excluded none none rowsC8 vmapC8).2 rW2 hr2 hnone⟩

/-- C10: the relevance each pool candidate carries into MMR is its row's
combined SQL score — raw vector similarity plus the keyword bonus, the
latter between 0 and 0.10. -/
theorem mmr_relevance_is_combined (ms cs : Option String) (rows : List Row)
    (vmap : String → Option (List ℝ)) :
    ∀ d ∈ docsWithVectors ms cs rows vmap,
      ∃ r ∈ rows, d.CHUNK_ID = r.CHUNK_ID
        ∧ d.sim = r.sim + kwBonus ms cs r
        ∧ 0 ≤ kwBonus ms cs r ∧ kwBonus ms cs r ≤ 1 / 10 := by
  intro d hd
  rw [docsWithVectors] at hd
  have hd' := List.mem_of_mem_filter hd
  rcases List.mem_map.mp hd' with ⟨r, hr, rfl⟩
  refine ⟨r, hr, rfl, rfl, ?_, ?_⟩
  · rw [kwBonus]
    split <;> split <;> norm_num
  · rw [kwBonus]
    split <;> split <;> norm_num

/-- Witness for `mmr_relevance_is_combined`: a matched meeting-scope term
adds 0.05 to the relevance fed into MMR. -/
theorem mmr_relevance_is_combined_witness :
    docC10 ∈ docsWithVectors (some "beta") none [rC10] vmapC10
    ∧ (∃ r ∈ [rC10], docC10.CHUNK_ID = r.CHUNK_ID
        ∧ docC10.sim = r.sim + kwBonus (some "beta") none r
        ∧ 0 ≤ kwBonus (some "beta") none r ∧ kwBonus (some "beta") none r ≤ 1 / 10)
    ∧ kwBonus (some "beta") none rC10 = 5 / 100 := by
  have hmem : docC10 ∈ docsWithVectors (some "beta") none [rC10] vmapC10 := by
    simp [docC10, docsWithVectors, rC10, vmapC10, scoreRow, kwBonus]
  refine ⟨hmem, mmr_relevance_is_combined (some "beta") none [rC10] vmapC10 _ hmem, ?_⟩
  norm_num [kwBonus, rC10]

end Granola
